import Mathlib

/-!
Verification development for the per-connection HTTP request-processing loop
(`src/base/http/connection.cpp`, class `Http::Connection`).

The embedding is shallow: every definition below is a direct translation of
the corresponding C++ entity.  Strings are modelled as `List Char`, byte
buffers as `List Nat`, `double` quality values as exact rationals `ℚ`
(faithful for the only use the code makes of them: the sign test
`qvalue <= 0`), and the event-driven connection as an explicit state record
with an event trace.
-/

namespace Http

/-! ### Gzip content-negotiation (`Connection::acceptsGzipEncoding`)

The C++ code (lines 162-203) strips spaces and tabs, splits on commas
skipping empty parts, and runs the local lambda `isCodingAvailable` first
for `"gzip"`, then for `"*"`. -/

/-- Decimal digit test, as used by `strtod`-style number parsing. -/
def isDigitCh (c : Char) : Bool := ('0' ≤ c) && (c ≤ '9')

/-- Value of a list of decimal digits, most significant first. -/
def digitsToNat (cs : List Char) : Nat :=
  cs.foldl (fun a c => a * 10 + (c.toNat - 48)) 0

/-- Exponent suffix of a C-locale floating-point literal (everything after
the `e`/`E`): an optional sign and a nonempty digit run that must consume the
whole remaining input; yields the signed exponent. -/
def expVal (t : List Char) : Option Int :=
  let p : Int × List Char :=
    match t with
    | '+' :: u => (1, u)
    | '-' :: u => (-1, u)
    | u => (1, u)
  let eds := p.2.takeWhile isDigitCh
  let rest := p.2.dropWhile isDigitCh
  if eds.isEmpty || !rest.isEmpty then none
  else some (p.1 * (digitsToNat eds : Int))

/-- Assemble `sign * (intDigits.fracDigits) * 10 ^ exponent` as an exact
rational from its parsed components. -/
def assembleDecimal (sign : Int) (intDigits fracDigits : List Char) (e : Int) : ℚ :=
  let num : Int :=
    sign * ((digitsToNat intDigits * 10 ^ fracDigits.length + digitsToNat fracDigits : Nat) : Int)
  let den : Nat := 10 ^ fracDigits.length
  if 0 ≤ e then mkRat (num * ((10 ^ e.toNat : Nat) : Int)) den
  else mkRat num (den * 10 ^ e.natAbs)

/-- Exact value of a C-locale decimal literal
`[sign] (digits [. digits] | . digits) [e|E [sign] digits]` that must consume
the entire input; anything else fails.  This is the grammar the
libdouble-conversion backend of Qt's `qt_asciiToDouble` accepts in its
trailing-junk-prohibited mode (no hex literals, no infinity/NaN symbols —
those are special-cased earlier, see `toDoubleQ`). -/
def parseDecimalQ (s : List Char) : Option ℚ :=
  let p : Int × List Char :=
    match s with
    | '+' :: t => (1, t)
    | '-' :: t => (-1, t)
    | t => (1, t)
  let intP := p.2.takeWhile isDigitCh
  let s2 := p.2.dropWhile isDigitCh
  let q : List Char × List Char :=
    match s2 with
    | '.' :: t => (t.takeWhile isDigitCh, t.dropWhile isDigitCh)
    | t => ([], t)
  if intP.isEmpty && q.1.isEmpty then none
  else
    match q.2 with
    | [] => some (assembleDecimal p.1 intP q.1 0)
    | 'e' :: t => (expVal t).map (assembleDecimal p.1 intP q.1)
    | 'E' :: t => (expVal t).map (assembleDecimal p.1 intP q.1)
    | _ => none

/-- `QChar::isSpace`: the characters `0x09`-`0x0D` and `0x20`, `0x85`,
`0xA0`, plus the Unicode Space/Line/Paragraph-Separator categories. -/
def isSpaceCh (c : Char) : Bool :=
  decide ((0x09 ≤ c.toNat ∧ c.toNat ≤ 0x0D) ∨ c.toNat = 0x20 ∨ c.toNat = 0x85
    ∨ c.toNat = 0xA0 ∨ c.toNat = 0x1680 ∨ (0x2000 ≤ c.toNat ∧ c.toNat ≤ 0x200A)
    ∨ c.toNat = 0x2028 ∨ c.toNat = 0x2029 ∨ c.toNat = 0x202F ∨ c.toNat = 0x205F
    ∨ c.toNat = 0x3000)

/-- Removal of leading and trailing `QChar::isSpace` characters, as
`QLocaleData::numberToCLocale` does before conversion (embedded whitespace
is not removed and makes the conversion fail). -/
def trimSpaces (s : List Char) : List Char :=
  ((s.dropWhile isSpaceCh).reverse.dropWhile isSpaceCh).reverse

/-- An IEEE double as far as this program observes one: the sign test
`qvalue <= 0` only needs the exact value of a finite result (conversions
that succeed never round a nonzero decimal to zero or to infinity — those
set `ok = false` instead — so the exact rational has the same sign as the
rounded double), or the special values. -/
inductive QtDouble where
  | val (q : ℚ)
  | posInf
  | negInf
  | nan
deriving DecidableEq

/-- The IEEE comparison `qvalue <= 0` on a conversion result: false for
`+inf` and for NaN (every ordered comparison with NaN is false), true for
`-inf`, and the exact rational comparison for finite values. -/
def qtLeZero : QtDouble → Bool
  | QtDouble.val q => decide (q ≤ 0)
  | QtDouble.posInf => false
  | QtDouble.negInf => true
  | QtDouble.nan => false

/-- Smallest magnitude that `qt_asciiToDouble` reports as overflow:
a decimal rounds to `±inf` iff its magnitude is at least
`2 ^ 1024 - 2 ^ 970 = 2 ^ 970 * (2 ^ 54 - 1)` (the tie midpoint above
`DBL_MAX` rounds up to the even `2 ^ 1024`), and a non-finite result sets
`ok = false`.  The numeral is that power written out, so that kernel
evaluation works on one literal. -/
def overflowThreshold : ℚ :=
  mkRat (179769313486231580793728971405303415079934132710037826936173778980444968292764750946649017977587207096330286416692887910946555547851940402630657488671505820681908902000708383676273854845817711531764475730270069855571366959622842914819860834936475292719074168444365510704342711559699508093042880177904174497792 : Int) 1

/-- Negation of `overflowThreshold`. -/
def negOverflowThreshold : ℚ :=
  mkRat (-(179769313486231580793728971405303415079934132710037826936173778980444968292764750946649017977587207096330286416692887910946555547851940402630657488671505820681908902000708383676273854845817711531764475730270069855571366959622842914819860834936475292719074168444365510704342711559699508093042880177904174497792 : Int)) 1

/-- Largest magnitude that rounds to zero: `2 ^ (-1075)` (the tie midpoint
below the least subnormal rounds down to the even zero).  A zero result
from a literal with a nonzero mantissa digit is Qt's underflow check and
sets `ok = false`.  The denominator numeral is `2 ^ 1075` written out. -/
def underflowThreshold : ℚ :=
  mkRat 1 404804506614621236704990693437834614099113299528284236713802716054860679135990693783920767402874248990374155728633623822779617474771586953734026799881477019843034848553132722728933815484186432682479535356945490137124014966849385397236206711298319112681620113024717539104666829230461005064372655017292012526615415482186989568

/-- Negation of `underflowThreshold`. -/
def negUnderflowThreshold : ℚ :=
  mkRat (-1) 404804506614621236704990693437834614099113299528284236713802716054860679135990693783920767402874248990374155728633623822779617474771586953734026799881477019843034848553132722728933815484186432682479535356945490137124014966849385397236206711298319112681620113024717539104666829230461005064372655017292012526615415482186989568

/-- Model of `QStringView::toDouble` (`QLocaleData::c()->stringToDouble`,
i.e. `numberToCLocale` followed by `qt_asciiToDouble` with its
libdouble-conversion backend, trailing junk prohibited): leading and
trailing `QChar::isSpace` whitespace is trimmed; the exact strings `"nan"`,
`"inf"`, `"+inf"`, `"-inf"` convert with `ok = true` (while `"+nan"` and
`"-nan"` are rejected, falling through to the decimal grammar and failing);
otherwise the input must be a full decimal literal, overflow to `±inf`
(`!qIsFinite`) sets `ok = false`, and a zero result from a literal with a
nonzero mantissa digit (underflow) sets `ok = false`.  `none` is
`ok == false`; subnormal results keep `ok = true` and their exact value's
sign. -/
def toDoubleQ (s : List Char) : Option QtDouble :=
  let w := trimSpaces s
  if w.isEmpty then none
  else if w = ("nan").toList then some QtDouble.nan
  else if w = ("inf").toList || w = ("+inf").toList then some QtDouble.posInf
  else if w = ("-inf").toList then some QtDouble.negInf
  else
    match parseDecimalQ w with
    | none => none
    | some q =>
      if overflowThreshold ≤ q ∨ q ≤ negOverflowThreshold then none
      else if q ≠ 0 ∧ negUnderflowThreshold ≤ q ∧ q ≤ underflowThreshold then none
      else some (QtDouble.val q)

/-- Split on `','`, keeping empty segments (one more segment than commas);
the skipping of empty parts is applied afterwards, mirroring
`split(u',', Qt::SkipEmptyParts)`. -/
def splitComma : List Char → List (List Char)
  | [] => [[]]
  | c :: t =>
    if c = ',' then [] :: splitComma t
    else
      match splitComma t with
      | [] => [[c]]
      | h :: r => (c :: h) :: r

/-- The comma-split with `Qt::SkipEmptyParts`: empty segments are dropped. -/
def splitSkipEmpty (s : List Char) : List (List Char) :=
  (splitComma s).filter (fun t => !t.isEmpty)

/-- Effect of `codings.remove(u' ').remove(u'\t')`: every space character is
removed, then every tab character. -/
def stripSpaceTab (s : List Char) : List Char :=
  (s.filter (fun c => c ≠ ' ')).filter (fun c => c ≠ '\t')

/-- The local lambda `isCodingAvailable` (lines 166-188): scan the entry list
for the first entry starting with `encoding`; an exact match accepts; an
entry with more characters is accepted iff the substring starting
`encoding.size() + 3` characters in (skipping over a presumed `";q="`)
parses as a number greater than zero; a failed parse or a value `≤ 0`
returns false without scanning further entries. -/
def isCodingAvailable : List (List Char) → List Char → Bool
  | [], _ => false
  | str :: rest, encoding =>
    if !(encoding.isPrefixOf str) then isCodingAvailable rest encoding
    else if str = encoding then true
    else
      match toDoubleQ (str.drop (encoding.length + 3)) with
      | none => false
      | some qvalue => if qtLeZero qvalue then false else true

/-- Decision once the token list has been computed: empty list refuses; then
`gzip` is tried, then `*` (lines 190-202). -/
def acceptsFromList (list : List (List Char)) : Bool :=
  if list.isEmpty then false
  else if isCodingAvailable list ("gzip".toList) then true
  else if isCodingAvailable list ("*".toList) then true
  else false

/-- `Connection::acceptsGzipEncoding` (lines 162-203). -/
def acceptsGzipEncoding (codings : List Char) : Bool :=
  acceptsFromList (splitSkipEmpty (stripSpaceTab codings))

/-! ### Idle expiry (`Connection::hasExpired`)

`hasExpired` (lines 150-155) forwards to the transport's `bytesAvailable()`
and `bytesToWrite()` (both `qint64`) and to `QElapsedTimer::hasExpired`.
The timer is external Qt code; its implementation and documentation agree on
`quint64(elapsed()) > quint64(timeout)`, an unsigned 64-bit comparison, so a
negative timeout (cast to a huge unsigned value) never expires. -/

/-- Cast of a `qint64` value to `quint64`, as a natural number. -/
def toQuint64 (x : Int) : Nat := (x % (2 : Int) ^ 64).toNat

/-- `QElapsedTimer::hasExpired(timeout)`: `quint64(elapsed()) > quint64(timeout)`. -/
def timerHasExpired (elapsed timeout : Int) : Bool :=
  toQuint64 timeout < toQuint64 elapsed

/-- Immutable view of the transport and timer state that
`Connection::hasExpired` queries: unread inbound bytes, unflushed outbound
bytes, and milliseconds elapsed since the idle timer was last restarted. -/
structure SocketView where
  bytesAvailable : Int
  bytesToWrite : Int
  elapsed : Int
deriving DecidableEq

/-- `Connection::hasExpired` (lines 150-155), a pure function of the view. -/
def hasExpired (sock : SocketView) (timeout : Int) : Bool :=
  (sock.bytesAvailable == 0) && (sock.bytesToWrite == 0)
    && timerHasExpired sock.elapsed timeout

/-! ### The connection state machine (`Connection::read`, lines 71-143)

Bytes are `Nat`, buffers `List Nat`.  The external collaborators
(`RequestParser::parse`, `IRequestHandler::processRequest`, the response
serializer, and the socket addresses) are abstracted as fields of a
`Collaborators` record; `MAX_CONTENT_SIZE` lives in `requestparser.h`
(outside this excerpt), so the derived ceiling
`long bufferLimit = MAX_CONTENT_SIZE * 1.1` (line 94) is carried as the
abstract integer field `bufferLimit` (for integer buffer sizes,
`size > MAX_CONTENT_SIZE * 1.1` is `size > bufferLimit`).
Writes to the socket are recorded as trace events carrying the `Response`
value (serialization by `toByteArray` is the external serializer's job). -/

/-- Header-key constant `Http::HEADER_CONNECTION` (declared in
`base/http/types.h`, outside this excerpt; the exact spelling is immaterial
to every claim below). -/
def HEADER_CONNECTION : String := "connection"

/-- Header-key constant `Http::HEADER_CONTENT_ENCODING` (declared in
`base/http/types.h`, outside this excerpt). -/
def HEADER_CONTENT_ENCODING : String := "content-encoding"

/-- A parsed HTTP request as this component consumes it: only the header map
is ever inspected here (`result.request.headers["accept-encoding"]`,
line 128); the remaining `Request` fields are opaque payload handed to the
request handler and are omitted. -/
structure Request where
  headers : List (String × String)
deriving DecidableEq

/-- A response under construction: status code, status text and the header
map this component writes into (`Connection`, `Content-Encoding`).  The body
is produced by the external handler and never inspected here. -/
structure Response where
  code : Nat
  text : String
  headers : List (String × String)
deriving DecidableEq

/-- `QHash`-style header-map assignment `headers[key] = value`: replace the
value of an existing key, or insert the key. -/
def setHeader : List (String × String) → String → String → List (String × String)
  | [], k, v => [(k, v)]
  | (k', v') :: t, k, v =>
    if k' = k then (k, v) :: t else (k', v') :: setHeader t k v

/-- `QHash`-style lookup `headers[key]` on a const map: the stored value, or
a default-constructed (empty) string when the key is absent. -/
def getHeader : List (String × String) → String → String
  | [], _ => ""
  | (k', v) :: t, k => if k' = k then v else getHeader t k

/-- Environment passed to the request handler (line 124): local and peer
address and port, all read off the socket. -/
structure Environment where
  localAddress : String
  localPort : Nat
  peerAddress : String
  peerPort : Nat
deriving DecidableEq

/-- `RequestParser::ParseResult`: the verdict, plus the parsed request and
the consumed byte count when the verdict is `OK` (the `default:` branch of
the `switch` is a `Q_ASSERT(false)` contract violation and cannot arise with
this three-valued verdict type). -/
inductive ParseResult where
  | incomplete
  | badRequest
  | ok (request : Request) (frameSize : Nat)
deriving DecidableEq

/-- Observable action of the connection, in order of occurrence: a request
successfully framed and dispatched, or a response written to the socket. -/
inductive Event where
  | parsedReq (request : Request)
  | sentResp (response : Response)
deriving DecidableEq

/-- State of one connection: the receive buffer `m_receivedData`, the
ordered trace of observable actions, and whether `m_socket->close()` has
been called. -/
structure ConnState where
  receivedData : List Nat
  trace : List Event
  closed : Bool
deriving DecidableEq

/-- The external collaborators and constants `Connection::read` composes:
the parser (a pure function of the buffer), the request handler, the
environment read off the socket, and the derived buffer ceiling. -/
structure Collaborators where
  parse : List Nat → ParseResult
  processRequest : Request → Environment → Response
  env : Environment
  bufferLimit : Nat

/-- `Connection::sendResponse` (lines 145-148): serialize and write to the
socket, recorded as a `sentResp` trace event. -/
def sendResponse (s : ConnState) (response : Response) : ConnState :=
  { s with trace := s.trace ++ [Event.sentResp response] }

/-- The `413 Payload Too Large` response built in the `Incomplete` oversize
branch (lines 100-101), with `Connection: close`. -/
def resp413 : Response :=
  { code := 413, text := "Payload Too Large",
    headers := setHeader [] HEADER_CONNECTION "close" }

/-- The `400 Bad Request` response built in the `BadRequest` branch
(lines 114-115), with `Connection: close`. -/
def resp400 : Response :=
  { code := 400, text := "Bad Request",
    headers := setHeader [] HEADER_CONNECTION "close" }

/-- Response actually sent for a parsed request (lines 126-133): the
handler's response, with `Content-Encoding: gzip` added when the request's
`accept-encoding` header accepts gzip, and `Connection: keep-alive` always
set. -/
def okResponse (C : Collaborators) (request : Request) : Response :=
  let resp := C.processRequest request C.env
  let resp :=
    if acceptsGzipEncoding ((getHeader request.headers "accept-encoding").toList)
    then { resp with headers := setHeader resp.headers HEADER_CONTENT_ENCODING "gzip" }
    else resp
  { resp with headers := setHeader resp.headers HEADER_CONNECTION "keep-alive" }

/-- One iteration of the `while (!m_receivedData.isEmpty())` body
(lines 86-142), for a nonempty buffer: parse, switch on the verdict, and
report whether the loop continues (`break` after `OK`) or returns. -/
def drainStep (C : Collaborators) (s : ConnState) : ConnState × Bool :=
  match C.parse s.receivedData with
  | ParseResult.incomplete =>
    if C.bufferLimit < s.receivedData.length then
      ({ sendResponse s resp413 with closed := true }, false)
    else (s, false)
  | ParseResult.badRequest =>
    ({ sendResponse s resp400 with closed := true }, false)
  | ParseResult.ok request frameSize =>
    let s₁ := { s with trace := s.trace ++ [Event.parsedReq request] }
    let s₂ := sendResponse s₁ (okResponse C request)
    ({ s₂ with receivedData := s₂.receivedData.drop frameSize }, true)

/-- The parse-drain loop of `Connection::read` (lines 86-142).  The C++
`while` has no fuel; `fuel` is a termination device only: the entry point
passes `buffer length + 1`, which is never exhausted when every `OK` verdict
consumes at least one byte (a parser that reports a zero-length frame would
make the C++ loop spin forever). -/
def drain (C : Collaborators) : Nat → ConnState → ConnState
  | 0, s => s
  | fuel + 1, s =>
    if s.receivedData.isEmpty then s
    else
      match drainStep C s with
      | (s', true) => drain C fuel s'
      | (s', false) => s'

/-- `QByteArray::chop(n)`: remove the last `n` bytes. -/
def chop (l : List Nat) (n : Nat) : List Nat := l.take (l.length - n)

/-- Writing `src` into `dst` starting at offset `pos`
(`m_socket->read(m_receivedData.data() + previousSize, ...)`). -/
def writeAt (dst : List Nat) (pos : Nat) (src : List Nat) : List Nat :=
  dst.take pos ++ src ++ dst.drop (pos + src.length)

/-- Buffer assembly of `Connection::read` lines 74-84 for a successful read:
`resize(previousSize + bytesAvailable)` appends `junk` (the resized region
is uninitialized, so its contents are arbitrary; `junk.length` plays
`bytesAvailable`), the socket read writes the `delivered` bytes at offset
`previousSize`, and if fewer bytes than advertised were delivered the excess
is chopped off the tail. -/
def ingest (buf junk delivered : List Nat) : List Nat :=
  let resized := buf ++ junk
  let afterRead := writeAt resized buf.length delivered
  if delivered.length < junk.length then chop afterRead (junk.length - delivered.length)
  else afterRead

/-- `Connection::read` (lines 71-143): ingest the available bytes, closing
on a read error (`bytesRead < 0`, modelled as `result = none`, which leaves
the resized buffer in place and closes), then run the parse-drain loop. -/
def read (C : Collaborators) (junk : List Nat) (result : Option (List Nat))
    (s : ConnState) : ConnState :=
  match result with
  | none => { s with receivedData := s.receivedData ++ junk, closed := true }
  | some delivered =>
    let buf := ingest s.receivedData junk delivered
    drain C (buf.length + 1) { s with receivedData := buf }

/-- One `readyRead` notification delivering exactly the advertised bytes.
After `m_socket->close()` Qt emits no further `readyRead` for this socket,
so delivery to a closed connection is a no-op; the uninitialized resize
contents are irrelevant (see `ingest_short_read_exact`), so zeros stand in
for them. -/
def deliver (C : Collaborators) (chunk : List Nat) (s : ConnState) : ConnState :=
  if s.closed then s
  else read C (List.replicate chunk.length 0) (some chunk) s

/-- Requests framed over a trace, in order. -/
def parsedSeq (t : List Event) : List Request :=
  t.filterMap (fun e =>
    match e with
    | Event.parsedReq r => some r
    | Event.sentResp _ => none)

/-- Responses written to the socket over a trace, in order. -/
def sentSeq (t : List Event) : List Response :=
  t.filterMap (fun e =>
    match e with
    | Event.parsedReq _ => none
    | Event.sentResp r => some r)

/-- Successive `readyRead` notifications: the chunks are delivered one per
`Connection::read` invocation, in order. -/
def deliverAll (C : Collaborators) (chunks : List (List Nat)) (s : ConnState) : ConnState :=
  chunks.foldl (fun t c => deliver C c t) s

/-- A freshly accepted connection: empty buffer, no events, socket open. -/
def initConn : ConnState := { receivedData := [], trace := [], closed := false }

/-! ### Concrete instances used to evaluate the theorems on closed inputs -/

/-- A concrete request value for concrete evaluations. -/
def reqW : Request := { headers := [] }

/-- A concrete handler response for concrete evaluations. -/
def respW : Response := { code := 200, text := "Ok", headers := [] }

/-- A concrete environment for concrete evaluations. -/
def envW : Environment :=
  { localAddress := "a", localPort := 1, peerAddress := "b", peerPort := 2 }

/-- A concrete handler for concrete evaluations. -/
def processW : Request → Environment → Response := fun _ _ => respW

/-- A parser whose requests occupy exactly two bytes: contract-conforming
(pure, frame no longer than the buffer, stable under appending bytes). -/
def parseTwo (b : List Nat) : ParseResult :=
  if 2 ≤ b.length then ParseResult.ok reqW 2 else ParseResult.incomplete

/-- A parser that always reports an incomplete request. -/
def parseIncomplete (_ : List Nat) : ParseResult := ParseResult.incomplete

/-- A parser whose single request occupies 100 bytes, e.g. one with 100
bytes of headers: contract-conforming, but its frame is larger than the
small buffer ceiling used in the chunk-independence counterexample. -/
def parseBig (b : List Nat) : ParseResult :=
  if 100 ≤ b.length then ParseResult.ok reqW 100 else ParseResult.incomplete

/-- Collaborators for the chunk-independence counterexample: a 100-byte
request against a buffer ceiling of 50 bytes. -/
def CX : Collaborators :=
  { parse := parseBig, processRequest := processW, env := envW, bufferLimit := 50 }

/-- Chunking used in the chunk-independence counterexample: the same 101
bytes once as 60 + 41 and once in a single delivery. -/
def chunksX : List (List Nat) := [List.replicate 60 0, List.replicate 41 0]

/-- Collaborators for the chunk-independence witness: two-byte frames and a
roomy ceiling. -/
def CW7 : Collaborators :=
  { parse := parseTwo, processRequest := processW, env := envW, bufferLimit := 10 }

/-- Collaborators for the pipelining witness. -/
def CW8 : Collaborators :=
  { parse := parseTwo, processRequest := processW, env := envW, bufferLimit := 100 }

/-- Buffer holding three complete back-to-back two-byte requests followed by
one byte of a not-yet-complete fourth request. -/
def sW8 : ConnState :=
  { receivedData := [1, 2, 3, 4, 5, 6, 7], trace := [], closed := false }

/-- The frame list of the pipelining witness: three two-byte requests. -/
def framesW : List (Request × Nat) := [(reqW, 2), (reqW, 2), (reqW, 2)]

/-- Total byte count of a list of framed requests. -/
def sumSizes (frames : List (Request × Nat)) : Nat :=
  (frames.map (fun p => p.2)).sum

/-- The trace the drain loop produces for a run of framed requests: for each
request in order, its parse event immediately followed by the write of its
response — so every response is sent before the next request is parsed. -/
def framesEvents (C : Collaborators) (frames : List (Request × Nat)) : List Event :=
  (frames.map (fun p => [Event.parsedReq p.1, Event.sentResp (okResponse C p.1)])).flatten

/-- The buffer starts with this run of complete back-to-back requests: the
parser recognizes each request at the front of the corresponding suffix,
with a contract-conforming frame size (nonempty, within the buffer). -/
def FramedBuffer (C : Collaborators) : List Nat → List (Request × Nat) → Prop
  | _, [] => True
  | b, (r, n) :: rest =>
    b ≠ [] ∧ 1 ≤ n ∧ n ≤ b.length ∧ C.parse b = ParseResult.ok r n ∧
      FramedBuffer C (b.drop n) rest

/-- Collaborators for the frame-removal witness. -/
def CW5 : Collaborators :=
  { parse := parseTwo, processRequest := processW, env := envW, bufferLimit := 100 }

/-- A three-byte buffer for the frame-removal witness. -/
def sW5 : ConnState := { receivedData := [1, 2, 3], trace := [], closed := false }

/-- Collaborators for the oversize-413 witness: ceiling of two bytes and a
parser that never completes. -/
def CW4 : Collaborators :=
  { parse := parseIncomplete, processRequest := processW, env := envW, bufferLimit := 2 }

/-- A three-byte buffer, strictly above `CW4`'s ceiling. -/
def sW4 : ConnState := { receivedData := [7, 8, 9], trace := [], closed := false }

/-! ### Helper lemmas about the comma split -/

theorem splitComma_ne_nil (s : List Char) : splitComma s ≠ [] := by
  induction s with
  | nil => simp [splitComma]
  | cons c t ih =>
    simp only [splitComma]
    split
    · simp
    · split
      · simp
      · simp

theorem splitComma_cons (c : Char) (t : List Char) :
    splitComma (c :: t) =
      if c = ',' then [] :: splitComma t
      else
        match splitComma t with
        | [] => [[c]]
        | h :: r => (c :: h) :: r := rfl

theorem splitComma_append_comma (a b : List Char) :
    splitComma (a ++ ',' :: b) = splitComma a ++ splitComma b := by
  induction a with
  | nil => simp [splitComma]
  | cons c t ih =>
    rw [List.cons_append, splitComma_cons, splitComma_cons]
    by_cases hc : c = ','
    · rw [if_pos hc, if_pos hc, ih]
      rfl
    · rw [if_neg hc, if_neg hc, ih]
      cases h : splitComma t with
      | nil => exact absurd h (splitComma_ne_nil t)
      | cons hd tl => simp

theorem splitSkipEmpty_append_comma (a b : List Char) :
    splitSkipEmpty (a ++ ',' :: b) = splitSkipEmpty a ++ splitSkipEmpty b := by
  simp [splitSkipEmpty, splitComma_append_comma, List.filter_append]

theorem splitSkipEmpty_comma_cons (s : List Char) :
    splitSkipEmpty (',' :: s) = splitSkipEmpty s := by
  simp [splitSkipEmpty, splitComma]

theorem stripSpaceTab_append (a b : List Char) :
    stripSpaceTab (a ++ b) = stripSpaceTab a ++ stripSpaceTab b := by
  simp [stripSpaceTab, List.filter_append]

theorem stripSpaceTab_comma_cons (s : List Char) :
    stripSpaceTab (',' :: s) = ',' :: stripSpaceTab s := by
  simp only [stripSpaceTab]
  rw [List.filter_cons_of_pos (by decide), List.filter_cons_of_pos (by decide)]

theorem splitSkipEmpty_all_comma (s : List Char) (h : ∀ c ∈ s, c = ',') :
    splitSkipEmpty s = [] := by
  induction s with
  | nil => rfl
  | cons c t ih =>
    have hc : c = ',' := h c (by simp)
    subst hc
    rw [splitSkipEmpty_comma_cons]
    exact ih (fun d hd => h d (by simp [hd]))

/-- C1: `acceptsGzipEncoding` returns exactly the reference results on the
spec's test vectors: `"gzip"` → true, `"gzip;q=0"` → false,
`"gzip;q=0.5"` → true, `""` → false, `"*"` → true, `"deflate"` → false,
`"gzip;q=abc"` → false, and `"deflate, *;q=0.3"` → true, the last accepted
via the `"*"` token (the `"gzip"` pass rejects that header). -/
theorem acceptsGzipEncoding_reference_vectors :
    acceptsGzipEncoding (("gzip").toList) = true
    ∧ acceptsGzipEncoding (("gzip;q=0").toList) = false
    ∧ acceptsGzipEncoding (("gzip;q=0.5").toList) = true
    ∧ acceptsGzipEncoding (("").toList) = false
    ∧ acceptsGzipEncoding (("*").toList) = true
    ∧ acceptsGzipEncoding (("deflate").toList) = false
    ∧ acceptsGzipEncoding (("gzip;q=abc").toList) = false
    ∧ acceptsGzipEncoding (("deflate, *;q=0.3").toList) = true
    ∧ isCodingAvailable (splitSkipEmpty (stripSpaceTab (("deflate, *;q=0.3").toList)))
        (("gzip").toList) = false := by
  exact ⟨by decide, by decide, by decide, by decide, by decide, by decide, by decide,
    by decide, by decide⟩

/-- C10: splitting discards empty tokens.  A header consisting only of
commas, spaces and tabs yields an empty token sequence and is refused; a
leading comma, a trailing comma, or a doubled comma anywhere never changes
the result; in particular `",gzip,"` decides like `"gzip"`. -/
theorem acceptsGzipEncoding_empty_token_handling :
    (∀ s : List Char, (∀ c ∈ s, c = ',' ∨ c = ' ' ∨ c = '\t') →
        acceptsGzipEncoding s = false)
    ∧ (∀ s : List Char, acceptsGzipEncoding (',' :: s) = acceptsGzipEncoding s)
    ∧ (∀ s : List Char, acceptsGzipEncoding (s ++ [',']) = acceptsGzipEncoding s)
    ∧ (∀ a b : List Char,
        acceptsGzipEncoding (a ++ ',' :: ',' :: b) = acceptsGzipEncoding (a ++ ',' :: b))
    ∧ acceptsGzipEncoding ((",gzip,").toList) = acceptsGzipEncoding (("gzip").toList) := by
  refine ⟨?_, ?_, ?_, ?_, by decide⟩
  · intro s h
    have hall : ∀ c ∈ stripSpaceTab s, c = ',' := by
      intro c hc
      unfold stripSpaceTab at hc
      have h2 := List.mem_filter.mp hc
      have h3 := List.mem_filter.mp h2.1
      rcases h c h3.1 with h4 | h4 | h4
      · exact h4
      · exact absurd h4 (by simpa using h3.2)
      · exact absurd h4 (by simpa using h2.2)
    rw [acceptsGzipEncoding, splitSkipEmpty_all_comma _ hall]
    rfl
  · intro s
    rw [acceptsGzipEncoding, acceptsGzipEncoding, stripSpaceTab_comma_cons,
      splitSkipEmpty_comma_cons]
  · intro s
    have hstep : stripSpaceTab (s ++ [',']) = stripSpaceTab s ++ [','] := by
      rw [stripSpaceTab_append]
      rfl
    rw [acceptsGzipEncoding, acceptsGzipEncoding, hstep,
      show stripSpaceTab s ++ [','] = stripSpaceTab s ++ ',' :: [] from rfl,
      splitSkipEmpty_append_comma]
    simp [splitSkipEmpty, splitComma]
  · intro a b
    rw [acceptsGzipEncoding, acceptsGzipEncoding, stripSpaceTab_append, stripSpaceTab_append,
      stripSpaceTab_comma_cons, stripSpaceTab_comma_cons,
      splitSkipEmpty_append_comma, splitSkipEmpty_append_comma, splitSkipEmpty_comma_cons]

/-- C10, witness: the all-separator header `",, \t"` (commas, a space and a
tab) is refused. -/
theorem acceptsGzipEncoding_empty_token_handling_witness :
    acceptsGzipEncoding ((",, \t").toList) = false :=
  acceptsGzipEncoding_empty_token_handling.1 _ (by decide)

/-! ### Claim theorems: idle expiry -/

/-- C6, counterexample: the claim quantifies over every timeout value, but
for `timeout = -1` with an all-idle transport and 5 ms elapsed, the cast to
`quint64` inside `QElapsedTimer::hasExpired` makes the comparison fail:
`hasExpired` returns false although no inbound or outbound bytes are
pending and the elapsed time strictly exceeds the timeout. -/
theorem hasExpired_negative_timeout_counterexample :
    ¬ ((hasExpired { bytesAvailable := 0, bytesToWrite := 0, elapsed := 5 } (-1) = true) ↔
        ((0 : Int) = 0 ∧ (0 : Int) = 0 ∧ (-1 : Int) < 5)) := by decide

/-- C6, amended: for every nonnegative timeout and every transport state in
the representable range of the monotonic timer (a `qint64` elapsed count is
nonnegative and below `2 ^ 63`), `hasExpired` is true iff no unread inbound
bytes are pending, no unflushed outbound bytes are pending, and the elapsed
idle time strictly exceeds the timeout; whenever bytes are pending in
either direction it is false regardless of elapsed time.  The query is a
pure function of the state view and mutates nothing. -/
theorem hasExpired_characterization (sock : SocketView) (timeout : Int)
    (ht0 : 0 ≤ timeout) (ht1 : timeout < ((2 ^ 63 : Nat) : Int))
    (he0 : 0 ≤ sock.elapsed) (he1 : sock.elapsed < ((2 ^ 63 : Nat) : Int)) :
    (hasExpired sock timeout = true ↔
        (sock.bytesAvailable = 0 ∧ sock.bytesToWrite = 0 ∧ timeout < sock.elapsed))
    ∧ ((sock.bytesAvailable ≠ 0 ∨ sock.bytesToWrite ≠ 0) → hasExpired sock timeout = false) := by
  have h1 : timeout % (2 : Int) ^ 64 = timeout :=
    Int.emod_eq_of_lt ht0 (by push_cast at ht1 ⊢; omega)
  have h2 : sock.elapsed % (2 : Int) ^ 64 = sock.elapsed :=
    Int.emod_eq_of_lt he0 (by push_cast at he1 ⊢; omega)
  have key : hasExpired sock timeout = true ↔
      (sock.bytesAvailable = 0 ∧ sock.bytesToWrite = 0 ∧ timeout < sock.elapsed) := by
    simp only [hasExpired, timerHasExpired, toQuint64, h1, h2, Bool.and_eq_true, beq_iff_eq,
      decide_eq_true_eq]
    constructor
    · rintro ⟨⟨hA, hB⟩, hC⟩
      exact ⟨hA, hB, by omega⟩
    · rintro ⟨hA, hB, hC⟩
      exact ⟨⟨hA, hB⟩, by omega⟩
  refine ⟨key, ?_⟩
  intro hpend
  cases hE : hasExpired sock timeout
  · rfl
  · exfalso
    rcases key.mp hE with ⟨hA, hB, _⟩
    rcases hpend with hp | hp
    · exact hp hA
    · exact hp hB

/-- C6, witness: a quiet socket that has been idle 7 ms expires against a
5 ms timeout. -/
theorem hasExpired_characterization_witness :
    (0 : Int) ≤ 5
    ∧ ((hasExpired { bytesAvailable := 0, bytesToWrite := 0, elapsed := 7 } 5 = true) ↔
        ((0 : Int) = 0 ∧ (0 : Int) = 0 ∧ (5 : Int) < 7)) :=
  ⟨by decide,
    (hasExpired_characterization { bytesAvailable := 0, bytesToWrite := 0, elapsed := 7 } 5
      (by decide) (by decide) (by decide) (by decide)).1⟩

/-! ### Claim theorems: buffer ingestion -/

/-- Helper: when no more bytes are delivered than were advertised, the
ingestion of lines 74-84 yields exactly the old buffer followed by the
delivered bytes, independent of the uninitialized resize contents. -/
theorem ingest_exact (buf junk delivered : List Nat)
    (h : delivered.length ≤ junk.length) :
    ingest buf junk delivered = buf ++ delivered := by
  unfold ingest writeAt chop
  dsimp only
  rw [List.take_left, List.drop_append]
  by_cases hlt : delivered.length < junk.length
  · rw [if_pos hlt]
    have hlen : (buf ++ delivered ++ junk.drop delivered.length).length -
        (junk.length - delivered.length) = (buf ++ delivered).length := by
      simp
      omega
    rw [hlen, List.take_left]
  · rw [if_neg hlt]
    have heq : delivered.length = junk.length := le_antisymm h (not_lt.mp hlt)
    rw [List.drop_eq_nil_of_le (by omega)]
    simp

/-- C9: when the transport delivers no more bytes than it advertised
(`junk`, the uninitialized resize region, has the advertised length), the
buffer after the ingestion step is exactly the previous contents followed by
the delivered bytes: its size grew by exactly the bytes actually obtained,
and no uninitialized byte of the resize region survives, whatever garbage it
held. -/
theorem read_buffer_reflects_delivered (buf junk delivered : List Nat)
    (h : delivered.length ≤ junk.length) :
    ingest buf junk delivered = buf ++ delivered
    ∧ (ingest buf junk delivered).length = buf.length + delivered.length := by
  have key := ingest_exact buf junk delivered h
  exact ⟨key, by rw [key]; simp⟩

/-- C9, witness: advertising three bytes, delivering two: the garbage bytes
`[9, 9, 9]` of the resized region vanish and the buffer is the old two
bytes plus the two delivered ones. -/
theorem read_buffer_reflects_delivered_witness :
    ([5, 6] : List Nat).length ≤ ([9, 9, 9] : List Nat).length
    ∧ ingest [1, 2] [9, 9, 9] [5, 6] = [1, 2] ++ [5, 6]
    ∧ (ingest [1, 2] [9, 9, 9] [5, 6]).length = ([1, 2] : List Nat).length + ([5, 6] : List Nat).length :=
  ⟨by decide,
    (read_buffer_reflects_delivered [1, 2] [9, 9, 9] [5, 6] (by decide)).1,
    (read_buffer_reflects_delivered [1, 2] [9, 9, 9] [5, 6] (by decide)).2⟩

/-! ### Unfolding lemmas for the parse-drain loop -/

theorem drain_succ (C : Collaborators) (fuel : Nat) (s : ConnState) :
    drain C (fuel + 1) s =
      if s.receivedData.isEmpty then s
      else
        match drainStep C s with
        | (s', true) => drain C fuel s'
        | (s', false) => s' := rfl

theorem isEmpty_false_of_ne_nil {l : List Nat} (h : l ≠ []) : l.isEmpty = false := by
  cases l with
  | nil => exact absurd rfl h
  | cons a t => rfl

theorem drain_empty (C : Collaborators) (fuel : Nat) (s : ConnState)
    (h : s.receivedData = []) : drain C fuel s = s := by
  cases fuel with
  | zero => rfl
  | succ f =>
    rw [drain_succ]
    simp [h]

/-- An `OK` iteration: dispatch, send, drop the frame, loop. -/
theorem drain_succ_ok (C : Collaborators) (fuel : Nat) (s : ConnState) (r : Request) (n : Nat)
    (hne : s.receivedData ≠ [])
    (hp : C.parse s.receivedData = ParseResult.ok r n) :
    drain C (fuel + 1) s =
      drain C fuel
        { s with receivedData := s.receivedData.drop n,
                 trace := s.trace ++ [Event.parsedReq r, Event.sentResp (okResponse C r)] } := by
  rw [drain_succ, isEmpty_false_of_ne_nil hne]
  simp only [Bool.false_eq_true, if_false, drainStep, hp, sendResponse, List.append_assoc]
  rfl

/-- An `Incomplete` iteration: 413 and close above the ceiling, otherwise
wait; the loop returns either way. -/
theorem drain_succ_incomplete (C : Collaborators) (fuel : Nat) (s : ConnState)
    (hne : s.receivedData ≠ [])
    (hp : C.parse s.receivedData = ParseResult.incomplete) :
    drain C (fuel + 1) s =
      if C.bufferLimit < s.receivedData.length then
        { s with trace := s.trace ++ [Event.sentResp resp413], closed := true }
      else s := by
  rw [drain_succ, isEmpty_false_of_ne_nil hne]
  simp only [Bool.false_eq_true, if_false, drainStep, hp, sendResponse]
  by_cases hlim : C.bufferLimit < s.receivedData.length
  · rw [if_pos hlim, if_pos hlim]
  · rw [if_neg hlim, if_neg hlim]

/-- A `BadRequest` iteration: 400, close, return. -/
theorem drain_succ_bad (C : Collaborators) (fuel : Nat) (s : ConnState)
    (hne : s.receivedData ≠ [])
    (hp : C.parse s.receivedData = ParseResult.badRequest) :
    drain C (fuel + 1) s =
      { s with trace := s.trace ++ [Event.sentResp resp400], closed := true } := by
  rw [drain_succ, isEmpty_false_of_ne_nil hne]
  simp only [Bool.false_eq_true, if_false, drainStep, hp, sendResponse]

/-! ### Claim theorems: the parse-drain loop -/

/-- C4: on an `Incomplete` verdict the drain loop sends the
`413 Payload Too Large` response carrying `Connection: close` and closes the
transport iff the buffer size strictly exceeds the ceiling; at or below the
ceiling it does nothing and waits for more bytes.  Either way the loop
returns immediately: the result does not depend on the remaining fuel. -/
theorem read_incomplete_oversize_behavior (C : Collaborators) (s : ConnState) (fuel : Nat)
    (hne : s.receivedData ≠ [])
    (hp : C.parse s.receivedData = ParseResult.incomplete) :
    drain C (fuel + 1) s =
      (if C.bufferLimit < s.receivedData.length
       then { s with trace := s.trace ++ [Event.sentResp resp413], closed := true }
       else s)
    ∧ getHeader resp413.headers HEADER_CONNECTION = "close"
    ∧ resp413.code = 413 ∧ resp413.text = "Payload Too Large" :=
  ⟨drain_succ_incomplete C fuel s hne hp, by decide⟩

/-- C4, witness: a three-byte still-incomplete buffer against a two-byte
ceiling triggers the 413-and-close branch. -/
theorem read_incomplete_oversize_behavior_witness :
    (sW4.receivedData ≠ [])
    ∧ (CW4.parse sW4.receivedData = ParseResult.incomplete)
    ∧ drain CW4 1 sW4 =
        (if CW4.bufferLimit < sW4.receivedData.length
         then { sW4 with trace := sW4.trace ++ [Event.sentResp resp413], closed := true }
         else sW4) :=
  ⟨by decide, rfl, (read_incomplete_oversize_behavior CW4 sW4 0 (by decide) rfl).1⟩

/-- C5: in any iteration of the parse-drain loop, an `OK` verdict with
frame size `n` removes exactly the first `n` bytes from the buffer — the
new buffer is the old one with its `n`-byte front cut off, so it starts at
the first byte after the parsed request — while `Incomplete` and
`BadRequest` verdicts leave the buffer untouched. -/
theorem drainStep_buffer_removal (C : Collaborators) (s : ConnState) :
    (∀ r n, C.parse s.receivedData = ParseResult.ok r n →
      (drainStep C s).1.receivedData = s.receivedData.drop n ∧
      s.receivedData.take n ++ (drainStep C s).1.receivedData = s.receivedData)
    ∧ (C.parse s.receivedData = ParseResult.incomplete →
        (drainStep C s).1.receivedData = s.receivedData)
    ∧ (C.parse s.receivedData = ParseResult.badRequest →
        (drainStep C s).1.receivedData = s.receivedData) := by
  refine ⟨?_, ?_, ?_⟩
  · intro r n hp
    refine ⟨?_, ?_⟩
    · simp only [drainStep, hp, sendResponse]
    · simp only [drainStep, hp, sendResponse]
      exact List.take_append_drop n s.receivedData
  · intro hp
    simp only [drainStep, hp, sendResponse]
    by_cases hlim : C.bufferLimit < s.receivedData.length
    · rw [if_pos hlim]
    · rw [if_neg hlim]
  · intro hp
    simp only [drainStep, hp, sendResponse]

/-- C5, witness: a two-byte frame parsed out of the three-byte buffer
`[1, 2, 3]` leaves exactly `[3]`. -/
theorem drainStep_buffer_removal_witness :
    (CW5.parse sW5.receivedData = ParseResult.ok reqW 2)
    ∧ ((drainStep CW5 sW5).1.receivedData = sW5.receivedData.drop 2
       ∧ sW5.receivedData.take 2 ++ (drainStep CW5 sW5).1.receivedData = sW5.receivedData) :=
  ⟨rfl, (drainStep_buffer_removal CW5 sW5).1 reqW 2 rfl⟩

/-- A terminal drain iteration is fuel-independent: on an empty buffer the
loop exits, and on an `Incomplete` verdict the iteration returns — so any
remaining fuel gives the same result as fuel 1. -/
theorem drain_terminal (C : Collaborators) (f : Nat) (s : ConnState) (hf : 1 ≤ f)
    (hend : s.receivedData = [] ∨ C.parse s.receivedData = ParseResult.incomplete) :
    drain C f s = drain C 1 s := by
  rcases hend with h | h
  · rw [drain_empty C f s h, drain_empty C 1 s h]
  · by_cases hnil : s.receivedData = []
    · rw [drain_empty C f s hnil, drain_empty C 1 s hnil]
    · obtain ⟨f', rfl⟩ : ∃ f', f = f' + 1 := ⟨f - 1, by omega⟩
      rw [drain_succ_incomplete C f' s hnil h,
        show (1 : Nat) = 0 + 1 from rfl, drain_succ_incomplete C 0 s hnil h]

/-- A framed run of requests occupies no more bytes than the buffer holds. -/
theorem sumSizes_le_length (C : Collaborators) :
    ∀ frames b, FramedBuffer C b frames → sumSizes frames ≤ b.length := by
  intro frames
  induction frames with
  | nil =>
    intro b _
    simp [sumSizes]
  | cons p rest ih =>
    obtain ⟨r, n⟩ := p
    intro b hfr
    obtain ⟨hne, hn1, hnb, hp, hrest⟩ := hfr
    have hr := ih (b.drop n) hrest
    simp [sumSizes] at hr ⊢
    omega

/-- The requests framed over a run of events are exactly the framed
requests, in order. -/
theorem framesEvents_parsedSeq (C : Collaborators) :
    ∀ frames, parsedSeq (framesEvents C frames) = frames.map Prod.fst := by
  intro frames
  induction frames with
  | nil => rfl
  | cons p rest ih =>
    simp [framesEvents, parsedSeq] at ih ⊢
    exact ih

/-- The responses sent over a run of events are exactly the framed
requests' responses, in order. -/
theorem framesEvents_sentSeq (C : Collaborators) :
    ∀ frames, sentSeq (framesEvents C frames) = frames.map (fun p => okResponse C p.1) := by
  intro frames
  induction frames with
  | nil => rfl
  | cons p rest ih =>
    simp [framesEvents, sentSeq] at ih ⊢
    exact ih

/-- Draining a buffer that starts with a run of complete framed requests
processes every one of them in order inside the one invocation, appending
`framesEvents` to the trace, and then performs the loop's terminal
iteration on the leftover bytes. -/
theorem drain_frames (C : Collaborators) :
    ∀ frames (s : ConnState) (f : Nat), sumSizes frames + 1 ≤ f →
      FramedBuffer C s.receivedData frames →
      (s.receivedData.drop (sumSizes frames) = [] ∨
        C.parse (s.receivedData.drop (sumSizes frames)) = ParseResult.incomplete) →
      drain C f s = drain C 1
        { s with receivedData := s.receivedData.drop (sumSizes frames),
                 trace := s.trace ++ framesEvents C frames } := by
  intro frames
  induction frames with
  | nil =>
    intro s f hf hfr hend
    have hstate : ({ s with
        receivedData := s.receivedData.drop (sumSizes ([] : List (Request × Nat))),
        trace := s.trace ++ framesEvents C [] } : ConnState) = s := by
      cases s
      simp [sumSizes, framesEvents]
    rw [hstate]
    exact drain_terminal C f s (by omega) (by simpa [sumSizes] using hend)
  | cons p rest ih =>
    obtain ⟨r, n⟩ := p
    intro s f hf hfr hend
    obtain ⟨hne, hn1, hnb, hp, hrest⟩ := hfr
    have hsum : sumSizes ((r, n) :: rest) = n + sumSizes rest := by
      simp [sumSizes]
    obtain ⟨f', rfl⟩ : ∃ f', f = f' + 1 := ⟨f - 1, by omega⟩
    rw [drain_succ_ok C f' s r n hne hp]
    rw [ih _ f' (by omega)
      hrest
      (by
        show List.drop (sumSizes rest) (s.receivedData.drop n) = [] ∨
          C.parse (List.drop (sumSizes rest) (s.receivedData.drop n)) = ParseResult.incomplete
        rw [List.drop_drop, ← hsum]
        exact hend)]
    congr 1
    cases s
    simp [framesEvents, hsum, List.drop_drop, List.append_assoc, Nat.add_comm]

/-- C8: when the buffer starts with any run of two or more complete
back-to-back requests — possibly followed by the first bytes of a
not-yet-complete next request — a single drain invocation dispatches every
one of them and sends its response, strictly in arrival order: the trace
gains exactly `framesEvents`, which interleaves each request's parse event
with the write of its response before the next request is parsed, and the
invocation ends with the loop's terminal iteration on the leftover bytes
(exit on empty, or the `Incomplete` handling of the trailing fragment). -/
theorem pipelined_requests_fifo (C : Collaborators) (s : ConnState)
    (frames : List (Request × Nat))
    (_htwo : 2 ≤ frames.length)
    (hfr : FramedBuffer C s.receivedData frames)
    (hend : s.receivedData.drop (sumSizes frames) = [] ∨
      C.parse (s.receivedData.drop (sumSizes frames)) = ParseResult.incomplete) :
    drain C (s.receivedData.length + 1) s =
      drain C 1
        { s with receivedData := s.receivedData.drop (sumSizes frames),
                 trace := s.trace ++ framesEvents C frames }
    ∧ parsedSeq (framesEvents C frames) = frames.map Prod.fst
    ∧ sentSeq (framesEvents C frames) = frames.map (fun p => okResponse C p.1) := by
  refine ⟨?_, framesEvents_parsedSeq C frames, framesEvents_sentSeq C frames⟩
  have hle := sumSizes_le_length C frames s.receivedData hfr
  exact drain_frames C frames s (s.receivedData.length + 1) (by omega) hfr hend

/-- C8, witness: the seven-byte buffer `[1, .., 7]` holding three two-byte
requests and one trailing byte of an incomplete fourth is handled in one
invocation: all three responses in FIFO order, then the terminal iteration
on the one leftover byte. -/
theorem pipelined_requests_fifo_witness :
    (2 ≤ framesW.length)
    ∧ (drain CW8 (sW8.receivedData.length + 1) sW8 =
        drain CW8 1
          { sW8 with receivedData := sW8.receivedData.drop (sumSizes framesW),
                     trace := sW8.trace ++ framesEvents CW8 framesW })
    ∧ parsedSeq (framesEvents CW8 framesW) = framesW.map Prod.fst
    ∧ sentSeq (framesEvents CW8 framesW) = framesW.map (fun p => okResponse CW8 p.1) := by
  have h := pipelined_requests_fifo CW8 sW8 framesW (by decide)
    (by
      refine ⟨by decide, by decide, by decide, rfl, by decide, by decide, by decide, rfl,
        by decide, by decide, by decide, rfl, trivial⟩)
    (Or.inr rfl)
  exact ⟨by decide, h.1, h.2.1, h.2.2⟩

/-! ### Lemma stack for chunk-boundary independence -/

theorem deliver_eq (C : Collaborators) (c b : List Nat) (t : List Event) :
    deliver C c { receivedData := b, trace := t, closed := false } =
      drain C ((b ++ c).length + 1) { receivedData := b ++ c, trace := t, closed := false } := by
  show (if false = true then _ else read C (List.replicate c.length 0) (some c)
      { receivedData := b, trace := t, closed := false }) = _
  rw [if_neg (by simp)]
  unfold read
  dsimp only
  rw [show ingest b (List.replicate c.length 0) c = b ++ c from
    ingest_exact _ _ _ (by simp)]

theorem drain_fuel_bound (C : Collaborators)
    (hok1 : ∀ b r n, C.parse b = ParseResult.ok r n → 1 ≤ n) :
    ∀ bound f g s, s.receivedData.length ≤ bound → bound + 1 ≤ f → bound + 1 ≤ g →
      drain C f s = drain C g s := by
  intro bound
  induction bound with
  | zero =>
    intro f g s hs hf hg
    have hnil : s.receivedData = [] := List.length_eq_zero.mp (by omega)
    rw [drain_empty C f s hnil, drain_empty C g s hnil]
  | succ bound ih =>
    intro f g s hs hf hg
    obtain ⟨f', rfl⟩ : ∃ f', f = f' + 1 := ⟨f - 1, by omega⟩
    obtain ⟨g', rfl⟩ : ∃ g', g = g' + 1 := ⟨g - 1, by omega⟩
    by_cases hnil : s.receivedData = []
    · rw [drain_empty C _ s hnil, drain_empty C _ s hnil]
    · cases hp : C.parse s.receivedData with
      | incomplete =>
        rw [drain_succ_incomplete C f' s hnil hp, drain_succ_incomplete C g' s hnil hp]
      | badRequest =>
        rw [drain_succ_bad C f' s hnil hp, drain_succ_bad C g' s hnil hp]
      | ok r n =>
        rw [drain_succ_ok C f' s r n hnil hp, drain_succ_ok C g' s r n hnil hp]
        have hn := hok1 _ _ _ hp
        have hpos : 1 ≤ s.receivedData.length := by
          cases hb : s.receivedData with
          | nil => exact absurd hb hnil
          | cons x l => simp [hb]
        apply ih
        · simp
          omega
        · omega
        · omega

theorem drain_fuel_adequate (C : Collaborators)
    (hok1 : ∀ b r n, C.parse b = ParseResult.ok r n → 1 ≤ n)
    (f g : Nat) (s : ConnState)
    (hf : s.receivedData.length + 1 ≤ f) (hg : s.receivedData.length + 1 ≤ g) :
    drain C f s = drain C g s :=
  drain_fuel_bound C hok1 s.receivedData.length f g s (le_refl _) hf hg

theorem drain_inv (C : Collaborators)
    (hbad : ∀ b, C.parse b ≠ ParseResult.badRequest) :
    ∀ fuel s, s.closed = false → s.receivedData.length ≤ C.bufferLimit →
      (drain C fuel s).closed = false ∧
        (drain C fuel s).receivedData.length ≤ s.receivedData.length := by
  intro fuel
  induction fuel with
  | zero => intro s h1 h2; exact ⟨h1, le_refl _⟩
  | succ f ih =>
    intro s h1 h2
    by_cases hnil : s.receivedData = []
    · rw [drain_empty C _ s hnil]
      exact ⟨h1, le_refl _⟩
    · cases hp : C.parse s.receivedData with
      | badRequest => exact absurd hp (hbad _)
      | incomplete =>
        rw [drain_succ_incomplete C f s hnil hp, if_neg (by omega)]
        exact ⟨h1, le_refl _⟩
      | ok r n =>
        rw [drain_succ_ok C f s r n hnil hp]
        obtain ⟨hc, hl⟩ := ih
          { s with receivedData := s.receivedData.drop n,
                   trace := s.trace ++ [Event.parsedReq r, Event.sentResp (okResponse C r)] }
          h1 (by simp; omega)
        refine ⟨hc, ?_⟩
        simp at hl
        omega


theorem drain_comm (C : Collaborators)
    (hok : ∀ b r n, C.parse b = ParseResult.ok r n →
        1 ≤ n ∧ n ≤ b.length ∧ ∀ extra, C.parse (b ++ extra) = ParseResult.ok r n)
    (hbad : ∀ b, C.parse b ≠ ParseResult.badRequest) :
    ∀ N b c t f g, b.length ≤ N → (b ++ c).length + 1 ≤ f → b.length + 1 ≤ g →
      b.length + c.length ≤ C.bufferLimit →
      drain C f { receivedData := b ++ c, trace := t, closed := false } =
        deliver C c (drain C g { receivedData := b, trace := t, closed := false }) := by
  have hok1 : ∀ b r n, C.parse b = ParseResult.ok r n → 1 ≤ n :=
    fun b r n h => (hok b r n h).1
  intro N
  induction N with
  | zero =>
    intro b c t f g hN hf hg hsize
    have hb : b = [] := List.length_eq_zero.mp (by omega)
    subst hb
    rw [drain_empty C g _ rfl, deliver_eq C c [] t]
    exact drain_fuel_adequate C hok1 f _ _ (by simpa using hf) (le_refl _)
  | succ N ih =>
    intro b c t f g hN hf hg hsize
    by_cases hb : b = []
    · subst hb
      rw [drain_empty C g _ rfl, deliver_eq C c [] t]
      exact drain_fuel_adequate C hok1 f _ _ (by simpa using hf) (le_refl _)
    · cases hp : C.parse b with
      | badRequest => exact absurd hp (hbad b)
      | incomplete =>
        obtain ⟨g', rfl⟩ : ∃ g', g = g' + 1 := ⟨g - 1, by omega⟩
        rw [drain_succ_incomplete C g' _ hb hp]
        rw [if_neg (show ¬ C.bufferLimit <
          ({ receivedData := b, trace := t, closed := false } : ConnState).receivedData.length by
            simp
            omega)]
        rw [deliver_eq C c b t]
        exact drain_fuel_adequate C hok1 f _ _ (by simpa using hf) (le_refl _)
      | ok r n =>
        obtain ⟨hn1, hnb, hstab⟩ := hok b r n hp
        obtain ⟨f', rfl⟩ : ∃ f', f = f' + 1 := ⟨f - 1, by omega⟩
        obtain ⟨g', rfl⟩ : ∃ g', g = g' + 1 := ⟨g - 1, by omega⟩
        have hbc : (({ receivedData := b ++ c, trace := t, closed := false } : ConnState)).receivedData ≠ [] := by
          simp [hb]
        have hpc : C.parse (b ++ c) = ParseResult.ok r n := hstab c
        rw [drain_succ_ok C f' _ r n hbc hpc]
        rw [drain_succ_ok C g' _ r n hb hp]
        dsimp only
        rw [List.drop_append_of_le_length hnb]
        have hpos : 1 ≤ b.length := by
          cases hx : b with
          | nil => exact absurd hx hb
          | cons y l => simp [hx]
        exact ih (b.drop n) c (t ++ [Event.parsedReq r, Event.sentResp (okResponse C r)]) f' g'
          (by simp; omega) (by simp at hf ⊢; omega) (by simp at hg ⊢; omega)
          (by simp; omega)


theorem deliverAll_cons (C : Collaborators) (c : List Nat) (chunks : List (List Nat))
    (s : ConnState) :
    deliverAll C (c :: chunks) s = deliverAll C chunks (deliver C c s) := rfl

theorem deliverAll_eq_single (C : Collaborators)
    (hok : ∀ b r n, C.parse b = ParseResult.ok r n →
        1 ≤ n ∧ n ≤ b.length ∧ ∀ extra, C.parse (b ++ extra) = ParseResult.ok r n)
    (hbad : ∀ b, C.parse b ≠ ParseResult.badRequest) :
    ∀ chunks c b t, b.length + (c ++ chunks.flatten).length ≤ C.bufferLimit →
      deliverAll C (c :: chunks) { receivedData := b, trace := t, closed := false } =
        deliver C (c ++ chunks.flatten) { receivedData := b, trace := t, closed := false } := by
  have hok1 : ∀ b r n, C.parse b = ParseResult.ok r n → 1 ≤ n :=
    fun b r n h => (hok b r n h).1
  intro chunks
  induction chunks with
  | nil =>
    intro c b t hsize
    rw [deliverAll_cons]
    rw [show deliverAll C []
        (deliver C c { receivedData := b, trace := t, closed := false }) =
        deliver C c { receivedData := b, trace := t, closed := false } from rfl]
    simp
  | cons c₂ rest ih =>
    intro c b t hsize
    rw [deliverAll_cons, deliver_eq C c b t]
    obtain ⟨hcl, hlen⟩ := drain_inv C hbad ((b ++ c).length + 1)
      { receivedData := b ++ c, trace := t, closed := false } rfl
      (by simp at hsize ⊢; omega)
    generalize hG : drain C ((b ++ c).length + 1)
      { receivedData := b ++ c, trace := t, closed := false } = s' at hcl hlen
    obtain ⟨b', t', cl'⟩ := s'
    simp only at hcl hlen
    subst hcl
    rw [ih c₂ b' t' (by simp at hsize hlen ⊢; omega)]
    rw [← hG, ← drain_comm C hok hbad (b ++ c).length (b ++ c) (c₂ ++ rest.flatten) t
      ((b ++ c ++ (c₂ ++ rest.flatten)).length + 1) ((b ++ c).length + 1)
      (le_refl _) (le_refl _) (le_refl _) (by simp at hsize ⊢; omega)]
    rw [deliver_eq C (c ++ (c₂ :: rest).flatten) b t]
    have hassoc : b ++ c ++ (c₂ ++ rest.flatten) = b ++ (c ++ (c₂ :: rest).flatten) := by
      simp [List.append_assoc]
    rw [hassoc]

/-- C7, amended: chunk-boundary independence holds on every run in which
the connection never closes.  Precisely: when the parser is
contract-conforming and prefix-stable (a parsed frame is nonempty, no
longer than the buffer, and unchanged by appending bytes), no input is ever
rejected as `BadRequest`, and the total delivered bytes fit under the
buffer ceiling (so no intermediate buffer can trigger the 413 closure),
delivering any chunking of a byte sequence to a fresh connection produces
exactly the same final state — same parsed requests, same responses in the
same order, same remaining buffer — as delivering all bytes at once. -/
theorem chunk_independence_no_close (C : Collaborators)
    (hok : ∀ b r n, C.parse b = ParseResult.ok r n →
        1 ≤ n ∧ n ≤ b.length ∧ ∀ extra, C.parse (b ++ extra) = ParseResult.ok r n)
    (hbad : ∀ b, C.parse b ≠ ParseResult.badRequest)
    (chunks : List (List Nat)) (t : List Event)
    (hsize : (chunks.flatten).length ≤ C.bufferLimit) :
    deliverAll C chunks { receivedData := [], trace := t, closed := false } =
      deliver C chunks.flatten { receivedData := [], trace := t, closed := false } := by
  cases chunks with
  | nil =>
    show _ = deliver C ([] : List (List Nat)).flatten _
    rw [show (([] : List (List Nat))).flatten = ([] : List Nat) from rfl,
      deliver_eq C [] [] t]
    rw [drain_empty C _ _ rfl]
    rfl
  | cons c rest =>
    exact deliverAll_eq_single C hok hbad rest c [] t (by simpa using hsize)


theorem parseTwo_contract : ∀ b r n, parseTwo b = ParseResult.ok r n →
    1 ≤ n ∧ n ≤ b.length ∧ ∀ extra, parseTwo (b ++ extra) = ParseResult.ok r n := by
  intro b r n h
  unfold parseTwo at h
  by_cases hb : 2 ≤ b.length
  · rw [if_pos hb] at h
    obtain ⟨rfl, rfl⟩ : r = reqW ∧ n = 2 := by
      cases h
      exact ⟨rfl, rfl⟩
    refine ⟨by omega, hb, ?_⟩
    intro extra
    unfold parseTwo
    rw [if_pos (by simp; omega)]
  · rw [if_neg hb] at h
    cases h

theorem parseTwo_not_bad : ∀ b, parseTwo b ≠ ParseResult.badRequest := by
  intro b h
  unfold parseTwo at h
  by_cases hb : 2 ≤ b.length
  · rw [if_pos hb] at h
    cases h
  · rw [if_neg hb] at h
    cases h

/-- C7, witness: the bytes `[1, 2, 3]` delivered as `[1]` then `[2, 3]`
against a two-byte-frame parser and a roomy ceiling reach the same state as
one shot. -/
theorem chunk_independence_no_close_witness :
    (([[1], [2, 3]] : List (List Nat)).flatten.length ≤ CW7.bufferLimit)
    ∧ deliverAll CW7 [[1], [2, 3]] initConn =
        deliver CW7 (([[1], [2, 3]] : List (List Nat)).flatten) initConn :=
  ⟨by decide,
    chunk_independence_no_close CW7 parseTwo_contract parseTwo_not_bad [[1], [2, 3]] []
      (by decide)⟩

/-- C7, counterexample: with a contract-conforming parser whose single
request occupies 100 bytes (e.g. header-heavy) and a buffer ceiling of 50,
delivering 101 bytes as 60 + 41 differs from delivering them at once: the
chunked run hits `Incomplete` with an oversized buffer after the first
chunk, answers 413 and closes having parsed nothing, while the one-shot
run parses the request, responds to it, and stays open.  Parsed-request
sequence, sent-response sequence and final buffer all differ, so the claim
as stated is false. -/
theorem chunk_independence_counterexample :
    parsedSeq ((deliverAll CX chunksX initConn).trace) ≠
        parsedSeq ((deliver CX chunksX.flatten initConn).trace)
    ∧ sentSeq ((deliverAll CX chunksX initConn).trace) ≠
        sentSeq ((deliver CX chunksX.flatten initConn).trace)
    ∧ (deliverAll CX chunksX initConn).receivedData ≠
        (deliver CX chunksX.flatten initConn).receivedData := by
  refine ⟨by decide, by decide, by decide⟩


end Http
